import Mathlib

/-!
Shallow embedding of the Bitcoin transaction codec from `src/src/lib.rs`
(crate `rust-week-3-exercises`), together with proofs about its encode and
decode functions.

Modelling conventions:
- A Rust byte slice `&[u8]` is a `List Nat` whose members are below 256.
- Machine integers (`u8`, `u16`, `u32`, `u64`, `usize`) are `Nat`s with the
  width bound carried as an explicit hypothesis or validity predicate, and
  with `% 2 ^ w` written out at the one place the source can overflow.
- Fallible decoding returns `DecodeResult`, which has a third outcome
  `panic` for the places where the Rust code can abort: an arithmetic
  overflow of `usize` or an out-of-range slice index.  Each such place is
  marked with a comment at the definition that models it.
-/

namespace BitcoinCodec

/-- Little-endian byte serialisation: `toLeBytes n v` models
`(v as uN*8).to_le_bytes()`, producing exactly `n` bytes.  The truncating
`as` cast of the source is absorbed by the per-byte `% 256`. -/
def toLeBytes : Nat → Nat → List Nat
  | 0, _ => []
  | n + 1, v => v % 256 :: toLeBytes n (v / 256)

/-- Little-endian byte deserialisation: models `uN::from_le_bytes`. -/
def fromLeBytes : List Nat → Nat
  | [] => 0
  | b :: rest => b + 256 * fromLeBytes rest

/-- The two error kinds of `enum BitcoinError`. -/
inductive BitcoinError where
  | insufficientBytes : BitcoinError
  | invalidFormat : BitcoinError
deriving DecidableEq, Repr

/-- Outcome of running a Rust decoding function: `Ok`, `Err`, or an abort
of the process (integer-overflow panic or slice-index panic). -/
inductive DecodeResult (α : Type) where
  | ok : α → DecodeResult α
  | err : BitcoinError → DecodeResult α
  | panic : DecodeResult α
deriving DecidableEq, Repr

/-- `true` exactly on `err invalidFormat`. -/
def DecodeResult.isInvalidFormat {α : Type} : DecodeResult α → Bool
  | .err .invalidFormat => true
  | _ => false

/-- `true` exactly on `panic`. -/
def DecodeResult.isPanic {α : Type} : DecodeResult α → Bool
  | .panic => true
  | _ => false

/-- `true` on `ok _` and on `err insufficientBytes`: the outcomes the spec
allows for binary decoding. -/
def DecodeResult.isOkOrInsufficient {α : Type} : DecodeResult α → Bool
  | .ok _ => true
  | .err .insufficientBytes => true
  | _ => false

/-- `struct CompactSize { pub value: u64 }` -/
structure CompactSize where
  value : Nat
deriving DecidableEq, Repr

/-- Validity of the embedding: the field fits in a `u64`. -/
def CompactSize.Valid (cs : CompactSize) : Prop := cs.value < 2 ^ 64

instance (cs : CompactSize) : Decidable cs.Valid :=
  inferInstanceAs (Decidable (cs.value < 2 ^ 64))

/-- `CompactSize::to_bytes`: match on the value's range, emit the
discriminator byte and the little-endian payload.  The first branch's
`self.value as u8` is the `% 256` (a no-op under the branch guard). -/
def CompactSize.to_bytes (cs : CompactSize) : List Nat :=
  if cs.value ≤ 0xFC then [cs.value % 256]
  else if cs.value ≤ 0xFFFF then 0xFD :: toLeBytes 2 cs.value
  else if cs.value ≤ 0xFFFFFFFF then 0xFE :: toLeBytes 4 cs.value
  else 0xFF :: toLeBytes 8 cs.value

/-- `CompactSize::from_bytes`: empty input fails; otherwise dispatch on the
first byte; `(bytes.drop 1).take w` models `[bytes[1], ..., bytes[w]]`,
which the length guard makes in bounds. -/
def CompactSize.from_bytes (bytes : List Nat) : DecodeResult (CompactSize × Nat) :=
  match bytes with
  | [] => .err .insufficientBytes
  | b :: _ =>
    if b ≤ 0xFC then .ok (⟨b⟩, 1)
    else if b = 0xFD then
      if bytes.length < 3 then .err .insufficientBytes
      else .ok (⟨fromLeBytes ((bytes.drop 1).take 2)⟩, 3)
    else if b = 0xFE then
      if bytes.length < 5 then .err .insufficientBytes
      else .ok (⟨fromLeBytes ((bytes.drop 1).take 4)⟩, 5)
    else
      if bytes.length < 9 then .err .insufficientBytes
      else .ok (⟨fromLeBytes ((bytes.drop 1).take 8)⟩, 9)

/-- `struct Txid(pub [u8; 32])`.  The fixed array length becomes the
`Txid.Valid` predicate. -/
structure Txid where
  bytes : List Nat
deriving DecidableEq, Repr

/-- Validity of the embedding: exactly 32 bytes, each below 256. -/
def Txid.Valid (t : Txid) : Prop :=
  t.bytes.length = 32 ∧ ∀ b ∈ t.bytes, b < 256

instance (t : Txid) : Decidable t.Valid :=
  inferInstanceAs (Decidable (t.bytes.length = 32 ∧ ∀ b ∈ t.bytes, b < 256))

/-- One lowercase hexadecimal digit, as emitted by `hex::encode`
(0-9 then a-f). -/
def hexDigitChar (n : Nat) : Char :=
  if n < 10 then Char.ofNat (48 + n) else Char.ofNat (87 + n)

/-- `hex::encode`: two lowercase hex digits per byte, high nibble first,
bytes in stored order.  (Behaviour of the `hex` crate used by the source.) -/
def hexEncode : List Nat → List Char
  | [] => []
  | b :: rest => hexDigitChar (b / 16) :: hexDigitChar (b % 16) :: hexEncode rest

/-- Value of one hex digit on decoding; `hex::decode` accepts both cases. -/
def hexDigitVal (c : Char) : Option Nat :=
  if 48 ≤ c.toNat ∧ c.toNat ≤ 57 then some (c.toNat - 48)
  else if 97 ≤ c.toNat ∧ c.toNat ≤ 102 then some (c.toNat - 87)
  else if 65 ≤ c.toNat ∧ c.toNat ≤ 70 then some (c.toNat - 55)
  else none

/-- `hex::decode`: fails (`none`) on odd length or on a non-hex character,
otherwise pairs of digits become bytes in order. -/
def hexDecode : List Char → Option (List Nat)
  | [] => some []
  | [_] => none
  | c1 :: c2 :: rest =>
    match hexDigitVal c1, hexDigitVal c2, hexDecode rest with
    | some h, some l, some bs => some ((16 * h + l) :: bs)
    | _, _, _ => none

/-- `impl Serialize for Txid`: serialises as the hex string of the raw
bytes. -/
def Txid.serializeHex (t : Txid) : List Char := hexEncode t.bytes

/-- `impl Deserialize for Txid`: hex-decodes the string, then requires
exactly 32 bytes.  Both failure paths raise a serde error; the spec assigns
that interchange-layer error the kind `InvalidFormat`, which is how it is
modelled here. -/
def Txid.deserializeHex (s : List Char) : DecodeResult Txid :=
  match hexDecode s with
  | none => .err .invalidFormat
  | some bs => if bs.length ≠ 32 then .err .invalidFormat else .ok ⟨bs⟩

/-- `struct OutPoint { pub txid: Txid, pub vout: u32 }` -/
structure OutPoint where
  txid : Txid
  vout : Nat
deriving DecidableEq, Repr

/-- Validity of the embedding: valid identifier, `vout` fits in a `u32`. -/
def OutPoint.Valid (op : OutPoint) : Prop :=
  op.txid.Valid ∧ op.vout < 2 ^ 32

instance (op : OutPoint) : Decidable op.Valid :=
  inferInstanceAs (Decidable (op.txid.Valid ∧ op.vout < 2 ^ 32))

/-- `OutPoint::to_bytes`: the 32 identifier bytes, then `vout` as 4
little-endian bytes. -/
def OutPoint.to_bytes (op : OutPoint) : List Nat :=
  op.txid.bytes ++ toLeBytes 4 op.vout

/-- `OutPoint::from_bytes`: requires 36 bytes; first 32 are the identifier,
next 4 the little-endian `vout`; consumes 36. -/
def OutPoint.from_bytes (bytes : List Nat) : DecodeResult (OutPoint × Nat) :=
  if bytes.length < 36 then .err .insufficientBytes
  else .ok (⟨⟨bytes.take 32⟩, fromLeBytes ((bytes.drop 32).take 4)⟩, 36)

/-- `struct Script { pub bytes: Vec<u8> }` -/
structure Script where
  bytes : List Nat
deriving DecidableEq, Repr

/-- Validity of the embedding: byte-valued entries; the length bound is
Rust's allocation guarantee (a `Vec<u8>` never exceeds `isize::MAX`
bytes). -/
def Script.Valid (s : Script) : Prop :=
  (∀ b ∈ s.bytes, b < 256) ∧ s.bytes.length < 2 ^ 63

instance (s : Script) : Decidable s.Valid :=
  inferInstanceAs (Decidable ((∀ b ∈ s.bytes, b < 256) ∧ s.bytes.length < 2 ^ 63))

/-- `usize::MAX + 1` on the 64-bit targets the crate is built for. -/
def USIZE : Nat := 2 ^ 64

/-- `Script::to_bytes`: length as a `CompactSize`, then the raw payload.
(`self.bytes.len() as u64` is lossless on 64-bit targets.) -/
def Script.to_bytes (s : Script) : List Nat :=
  (CompactSize.mk s.bytes.length).to_bytes ++ s.bytes

/-- `Script::from_bytes`.  The source computes
`total_bytes_needed = consumed + length.value as usize` with an unchecked
`usize` addition, so `total` here carries the wrap `% USIZE`.  When the sum
wraps, `total < consumed`: a release build reaches the slice
`bytes[consumed..total]` with start above end and panics there (the wrapped
total is at most 8 while `bytes.len() ≥ 9`, so the length test passes); a
debug build already panics at the addition.  Both are the `.panic`
branch. -/
def Script.from_bytes (bytes : List Nat) : DecodeResult (Script × Nat) :=
  match CompactSize.from_bytes bytes with
  | .err e => .err e
  | .panic => .panic
  | .ok (length, consumed) =>
    let total := (consumed + length.value) % USIZE
    if bytes.length < total then .err .insufficientBytes
    else if total < consumed then .panic
    else .ok (⟨(bytes.drop consumed).take (total - consumed)⟩, total)

/-- `struct TransactionInput` -/
structure TransactionInput where
  previous_output : OutPoint
  script_sig : Script
  sequence : Nat
deriving DecidableEq, Repr

/-- Validity of the embedding: valid parts, `sequence` fits in a `u32`. -/
def TransactionInput.Valid (i : TransactionInput) : Prop :=
  i.previous_output.Valid ∧ i.script_sig.Valid ∧ i.sequence < 2 ^ 32

instance (i : TransactionInput) : Decidable i.Valid :=
  inferInstanceAs
    (Decidable (i.previous_output.Valid ∧ i.script_sig.Valid ∧ i.sequence < 2 ^ 32))

/-- `TransactionInput::to_bytes`: outpoint, script, then `sequence` as 4
little-endian bytes. -/
def TransactionInput.to_bytes (i : TransactionInput) : List Nat :=
  i.previous_output.to_bytes ++ i.script_sig.to_bytes ++ toLeBytes 4 i.sequence

/-- `TransactionInput::from_bytes`: outpoint at offset 0, script at the
advanced offset, then a guarded 4-byte sequence read.  `&bytes[c1..]`
panics when `c1 > bytes.len()`, modelled by the `.panic` branch (dead in
fact, since a successful outpoint decode guarantees 36 ≤ length). -/
def TransactionInput.from_bytes (bytes : List Nat) : DecodeResult (TransactionInput × Nat) :=
  match OutPoint.from_bytes bytes with
  | .err e => .err e
  | .panic => .panic
  | .ok (previous_output, c1) =>
    if bytes.length < c1 then .panic
    else
      match Script.from_bytes (bytes.drop c1) with
      | .err e => .err e
      | .panic => .panic
      | .ok (script_sig, c2) =>
        if bytes.length < c1 + c2 + 4 then .err .insufficientBytes
        else
          .ok (⟨previous_output, script_sig,
                fromLeBytes ((bytes.drop (c1 + c2)).take 4)⟩, c1 + c2 + 4)

/-- `struct BitcoinTransaction` -/
structure BitcoinTransaction where
  version : Nat
  inputs : List TransactionInput
  lock_time : Nat
deriving DecidableEq, Repr

/-- Validity of the embedding: `u32` fields, valid inputs, and an input
count that fits in a `u64` (a `Vec` length always does). -/
def BitcoinTransaction.Valid (tx : BitcoinTransaction) : Prop :=
  tx.version < 2 ^ 32 ∧ (∀ i ∈ tx.inputs, i.Valid) ∧
    tx.inputs.length < 2 ^ 64 ∧ tx.lock_time < 2 ^ 32

instance (tx : BitcoinTransaction) : Decidable tx.Valid :=
  inferInstanceAs
    (Decidable (tx.version < 2 ^ 32 ∧ (∀ i ∈ tx.inputs, i.Valid) ∧
      tx.inputs.length < 2 ^ 64 ∧ tx.lock_time < 2 ^ 32))

/-- The `for input in &self.inputs` encoding loop: concatenation of the
inputs' encodings in order. -/
def encodeInputs : List TransactionInput → List Nat
  | [] => []
  | i :: rest => i.to_bytes ++ encodeInputs rest

/-- `BitcoinTransaction::to_bytes`: version (4 LE bytes), input count as a
`CompactSize`, each input, lock time (4 LE bytes). -/
def BitcoinTransaction.to_bytes (tx : BitcoinTransaction) : List Nat :=
  toLeBytes 4 tx.version ++ (CompactSize.mk tx.inputs.length).to_bytes ++
    encodeInputs tx.inputs ++ toLeBytes 4 tx.lock_time

/-- The `for _ in 0..input_count.value` decoding loop, with the count as
fuel, the running offset, and the accumulated inputs.  `&bytes[offset..]`
panics when `offset > bytes.len()`, modelled by the `.panic` branch (dead
in fact: every successful component decode consumes at most the bytes it
was given). -/
def decodeInputs (bytes : List Nat) : Nat → Nat → List TransactionInput →
    DecodeResult (List TransactionInput × Nat)
  | 0, offset, acc => .ok (acc, offset)
  | n + 1, offset, acc =>
    if bytes.length < offset then .panic
    else
      match TransactionInput.from_bytes (bytes.drop offset) with
      | .err e => .err e
      | .panic => .panic
      | .ok (i, c) => decodeInputs bytes n (offset + c) (acc ++ [i])

/-- `BitcoinTransaction::from_bytes`: 4-byte version (guarded), input count
as a `CompactSize` at offset 4, the input loop, then a guarded 4-byte lock
time at the final offset. -/
def BitcoinTransaction.from_bytes (bytes : List Nat) :
    DecodeResult (BitcoinTransaction × Nat) :=
  if bytes.length < 4 then .err .insufficientBytes
  else
    match CompactSize.from_bytes (bytes.drop 4) with
    | .err e => .err e
    | .panic => .panic
    | .ok (input_count, consumed) =>
      match decodeInputs bytes input_count.value (4 + consumed) [] with
      | .err e => .err e
      | .panic => .panic
      | .ok (inputs, offset) =>
        if bytes.length < offset + 4 then .err .insufficientBytes
        else
          .ok (⟨fromLeBytes (bytes.take 4), inputs,
                fromLeBytes ((bytes.drop offset).take 4)⟩, offset + 4)

theorem toLeBytes_length (n v : Nat) : (toLeBytes n v).length = n := by
  induction n generalizing v with
  | zero => rfl
  | succ k ih => simp [toLeBytes, ih]

theorem toLeBytes_lt (n v : Nat) : ∀ b ∈ toLeBytes n v, b < 256 := by
  induction n generalizing v with
  | zero => simp [toLeBytes]
  | succ k ih =>
    intro b hb
    simp only [toLeBytes, List.mem_cons] at hb
    rcases hb with h | h
    · omega
    · exact ih _ b h

theorem fromLeBytes_toLeBytes (n v : Nat) (h : v < 256 ^ n) :
    fromLeBytes (toLeBytes n v) = v := by
  induction n generalizing v with
  | zero =>
    simp [toLeBytes, fromLeBytes]
    omega
  | succ k ih =>
    have hdiv : v / 256 < 256 ^ k := by
      rw [Nat.div_lt_iff_lt_mul (by norm_num : 0 < 256)]
      calc v < 256 ^ (k + 1) := h
        _ = 256 ^ k * 256 := by ring
    simp only [toLeBytes, fromLeBytes, ih (v / 256) hdiv]
    omega

theorem take_append_eq {α : Type} (l1 l2 : List α) (n : Nat) (h : l1.length = n) :
    (l1 ++ l2).take n = l1 := by
  subst h; exact List.take_left l1 l2

theorem drop_append_eq {α : Type} (l1 l2 : List α) (n : Nat) (h : l1.length = n) :
    (l1 ++ l2).drop n = l2 := by
  subst h; exact List.drop_left l1 l2

theorem CompactSize.to_bytes_length_le (cs : CompactSize) : cs.to_bytes.length ≤ 9 := by
  unfold CompactSize.to_bytes
  split
  · simp
  · split
    · simp [toLeBytes_length]
    · split <;> simp [toLeBytes_length]

theorem CompactSize.from_bytes_small (b : Nat) (tail : List Nat) (h : b ≤ 0xFC) :
    CompactSize.from_bytes (b :: tail) = .ok (⟨b⟩, 1) := by
  simp [CompactSize.from_bytes, h]

theorem CompactSize.from_bytes_fd (tail : List Nat) (h : 2 ≤ tail.length) :
    CompactSize.from_bytes (0xFD :: tail) = .ok (⟨fromLeBytes (tail.take 2)⟩, 3) := by
  simp only [CompactSize.from_bytes]
  norm_num [List.length_cons]
  omega

theorem CompactSize.from_bytes_fd_short (tail : List Nat) (h : tail.length < 2) :
    CompactSize.from_bytes (0xFD :: tail) = .err .insufficientBytes := by
  simp only [CompactSize.from_bytes]
  norm_num [List.length_cons]
  omega

theorem CompactSize.from_bytes_fe (tail : List Nat) (h : 4 ≤ tail.length) :
    CompactSize.from_bytes (0xFE :: tail) = .ok (⟨fromLeBytes (tail.take 4)⟩, 5) := by
  simp only [CompactSize.from_bytes]
  norm_num [List.length_cons]
  omega

theorem CompactSize.from_bytes_fe_short (tail : List Nat) (h : tail.length < 4) :
    CompactSize.from_bytes (0xFE :: tail) = .err .insufficientBytes := by
  simp only [CompactSize.from_bytes]
  norm_num [List.length_cons]
  omega

theorem CompactSize.from_bytes_ff (tail : List Nat) (h : 8 ≤ tail.length) :
    CompactSize.from_bytes (0xFF :: tail) = .ok (⟨fromLeBytes (tail.take 8)⟩, 9) := by
  simp only [CompactSize.from_bytes]
  norm_num [List.length_cons]
  omega

theorem CompactSize.from_bytes_ff_short (tail : List Nat) (h : tail.length < 8) :
    CompactSize.from_bytes (0xFF :: tail) = .err .insufficientBytes := by
  simp only [CompactSize.from_bytes]
  norm_num [List.length_cons]
  omega

theorem compactSize_roundtrip (cs : CompactSize) (h : cs.Valid)
    (rest : List Nat) :
    CompactSize.from_bytes (cs.to_bytes ++ rest) = .ok (cs, cs.to_bytes.length) := by
  obtain ⟨v⟩ := cs
  unfold CompactSize.Valid at h
  simp only at h
  have hpow2 : (256 : Nat) ^ 2 = 65536 := by norm_num
  have hpow4 : (256 : Nat) ^ 4 = 4294967296 := by norm_num
  have hpow8 : (256 : Nat) ^ 8 = 2 ^ 64 := by norm_num
  by_cases h1 : v ≤ 0xFC
  · have hv : v % 256 = v := Nat.mod_eq_of_lt (by omega)
    simp only [CompactSize.to_bytes, if_pos h1, hv, List.cons_append,
      List.nil_append]
    rw [CompactSize.from_bytes_small v rest h1]
    simp [hv]
  · by_cases h2 : v ≤ 0xFFFF
    · simp only [CompactSize.to_bytes, if_neg h1, if_pos h2, List.cons_append]
      rw [CompactSize.from_bytes_fd _ (by simp [toLeBytes_length]),
        take_append_eq _ _ _ (toLeBytes_length 2 v),
        fromLeBytes_toLeBytes 2 v (by omega)]
      simp [toLeBytes_length]
    · by_cases h3 : v ≤ 0xFFFFFFFF
      · simp only [CompactSize.to_bytes, if_neg h1, if_neg h2, if_pos h3,
          List.cons_append]
        rw [CompactSize.from_bytes_fe _ (by simp [toLeBytes_length]),
          take_append_eq _ _ _ (toLeBytes_length 4 v),
          fromLeBytes_toLeBytes 4 v (by omega)]
        simp [toLeBytes_length]
      · simp only [CompactSize.to_bytes, if_neg h1, if_neg h2, if_neg h3,
          List.cons_append]
        rw [CompactSize.from_bytes_ff _ (by simp [toLeBytes_length]),
          take_append_eq _ _ _ (toLeBytes_length 8 v),
          fromLeBytes_toLeBytes 8 v (by omega)]
        simp [toLeBytes_length]

theorem outPoint_to_bytes_length (op : OutPoint) (h : op.txid.bytes.length = 32) :
    op.to_bytes.length = 36 := by
  simp [OutPoint.to_bytes, toLeBytes_length, h]

theorem outPoint_roundtrip (op : OutPoint) (h : op.Valid)
    (rest : List Nat) :
    OutPoint.from_bytes (op.to_bytes ++ rest) = .ok (op, 36) := by
  obtain ⟨⟨tb⟩, vout⟩ := op
  obtain ⟨⟨hlen, _⟩, hvout⟩ := h
  simp only at hlen hvout
  have hpow4 : (256 : Nat) ^ 4 = 2 ^ 32 := by norm_num
  simp only [OutPoint.to_bytes, List.append_assoc]
  unfold OutPoint.from_bytes
  rw [if_neg (by simp [toLeBytes_length, hlen]; omega)]
  rw [take_append_eq _ _ _ hlen, drop_append_eq _ _ _ hlen,
    take_append_eq _ _ _ (toLeBytes_length 4 vout),
    fromLeBytes_toLeBytes 4 vout (by omega)]

theorem script_to_bytes_length (s : Script) :
    s.to_bytes.length = (CompactSize.mk s.bytes.length).to_bytes.length + s.bytes.length := by
  simp [Script.to_bytes]

theorem script_roundtrip (s : Script) (h : s.Valid) (rest : List Nat) :
    Script.from_bytes (s.to_bytes ++ rest) = .ok (s, s.to_bytes.length) := by
  obtain ⟨sb⟩ := s
  obtain ⟨_, hlen⟩ := h
  simp only [Script.bytes] at hlen
  have ha : (9 : Nat) ≤ 2 ^ 63 := by norm_num
  have hp : (2 : Nat) ^ 63 + 2 ^ 63 = 2 ^ 64 := by norm_num
  have hcsv : (CompactSize.mk sb.length).Valid := by
    unfold CompactSize.Valid; simp only; omega
  have hc9 : (CompactSize.mk sb.length).to_bytes.length ≤ 9 :=
    CompactSize.to_bytes_length_le _
  simp only [Script.to_bytes, List.append_assoc]
  unfold Script.from_bytes
  rw [compactSize_roundtrip _ hcsv (sb ++ rest)]
  simp only
  rw [show ((CompactSize.mk sb.length).to_bytes.length + sb.length) % USIZE
        = (CompactSize.mk sb.length).to_bytes.length + sb.length by
      unfold USIZE; exact Nat.mod_eq_of_lt (by omega)]
  rw [if_neg (by simp)]
  rw [if_neg (by omega)]
  rw [drop_append_eq _ _ _ rfl]
  rw [Nat.add_sub_cancel_left, take_append_eq _ _ _ rfl]
  simp [Script.to_bytes]

theorem drop_append_sum {α : Type} (l1 l2 rest : List α) (m n : Nat)
    (h1 : l1.length = m) (h2 : l2.length = n) :
    (l1 ++ (l2 ++ rest)).drop (m + n) = rest := by
  rw [← List.append_assoc]
  exact drop_append_eq _ _ _ (by simp [h1, h2])

theorem txInput_to_bytes_length (i : TransactionInput)
    (h : i.previous_output.txid.bytes.length = 32) :
    i.to_bytes.length = 36 + i.script_sig.to_bytes.length + 4 := by
  simp [TransactionInput.to_bytes, OutPoint.to_bytes, Script.to_bytes,
    toLeBytes_length, h]
  omega

theorem txInput_roundtrip (i : TransactionInput) (h : i.Valid)
    (rest : List Nat) :
    TransactionInput.from_bytes (i.to_bytes ++ rest) = .ok (i, i.to_bytes.length) := by
  obtain ⟨op, ss, seq⟩ := i
  obtain ⟨hop, hss, hseq⟩ := h
  simp only at hop hss hseq
  have hoplen : op.to_bytes.length = 36 := outPoint_to_bytes_length op hop.1.1
  have hpow4 : (256 : Nat) ^ 4 = 2 ^ 32 := by norm_num
  simp only [TransactionInput.to_bytes, List.append_assoc]
  unfold TransactionInput.from_bytes
  rw [outPoint_roundtrip op hop _]
  simp only
  rw [if_neg (by simp [hoplen, toLeBytes_length])]
  rw [drop_append_eq _ _ _ hoplen, script_roundtrip ss hss _]
  simp only
  rw [if_neg (by simp [hoplen, toLeBytes_length]; omega)]
  rw [drop_append_sum _ _ _ _ _ hoplen rfl,
    take_append_eq _ _ _ (toLeBytes_length 4 seq),
    fromLeBytes_toLeBytes 4 seq (by omega)]
  simp [toLeBytes_length, hoplen]
  omega

theorem decodeInputs_encodeInputs (bytes : List Nat) (ins : List TransactionInput)
    (hv : ∀ i ∈ ins, i.Valid) (offset : Nat) (acc : List TransactionInput)
    (rest : List Nat) (hoff : offset ≤ bytes.length)
    (hdrop : bytes.drop offset = encodeInputs ins ++ rest) :
    decodeInputs bytes ins.length offset acc =
      .ok (acc ++ ins, offset + (encodeInputs ins).length) := by
  induction ins generalizing offset acc rest with
  | nil => simp [decodeInputs, encodeInputs]
  | cons i ins ih =>
    have hdrop' : bytes.drop offset = i.to_bytes ++ (encodeInputs ins ++ rest) := by
      rw [hdrop]; simp [encodeInputs, List.append_assoc]
    have hlenb : bytes.length - offset =
        i.to_bytes.length + ((encodeInputs ins).length + rest.length) := by
      have := congrArg List.length hdrop'
      simpa [List.length_drop] using this
    simp only [List.length_cons, decodeInputs]
    rw [if_neg (by omega)]
    rw [hdrop', txInput_roundtrip i (hv i (by simp)) _]
    simp only
    have hdd : bytes.drop (offset + i.to_bytes.length) =
        encodeInputs ins ++ rest := by
      have h1 : bytes.drop (offset + i.to_bytes.length) =
          (bytes.drop offset).drop i.to_bytes.length := by
        rw [List.drop_drop]
      rw [h1, hdrop', drop_append_eq _ _ _ rfl]
    rw [ih (fun j hj => hv j (by simp [hj])) (offset + i.to_bytes.length)
      (acc ++ [i]) rest (by omega) hdd]
    simp [encodeInputs, List.append_assoc, Nat.add_assoc]

theorem transaction_roundtrip (tx : BitcoinTransaction)
    (h : tx.Valid) :
    BitcoinTransaction.from_bytes tx.to_bytes = .ok (tx, tx.to_bytes.length) := by
  obtain ⟨ver, ins, lt⟩ := tx
  obtain ⟨hver, hins, hcount, hlt⟩ := h
  simp only at hver hins hcount hlt
  have hpow4 : (256 : Nat) ^ 4 = 2 ^ 32 := by norm_num
  have hcsv : (CompactSize.mk ins.length).Valid := by
    unfold CompactSize.Valid; simpa using hcount
  have hc9 : (CompactSize.mk ins.length).to_bytes.length ≤ 9 :=
    CompactSize.to_bytes_length_le _
  simp only [BitcoinTransaction.to_bytes, List.append_assoc]
  unfold BitcoinTransaction.from_bytes
  rw [if_neg (by simp [toLeBytes_length])]
  rw [drop_append_eq _ _ _ (toLeBytes_length 4 ver),
    compactSize_roundtrip _ hcsv _]
  simp only
  have hdrop : (toLeBytes 4 ver ++ ((CompactSize.mk ins.length).to_bytes ++
      (encodeInputs ins ++ toLeBytes 4 lt))).drop
        (4 + (CompactSize.mk ins.length).to_bytes.length) =
      encodeInputs ins ++ toLeBytes 4 lt :=
    drop_append_sum _ _ _ _ _ (toLeBytes_length 4 ver) rfl
  rw [decodeInputs_encodeInputs _ ins hins _ [] (toLeBytes 4 lt)
    (by simp [toLeBytes_length]; try omega) hdrop]
  simp only [List.nil_append]
  rw [if_neg (by simp [toLeBytes_length]; omega)]
  have hlock : (toLeBytes 4 ver ++ ((CompactSize.mk ins.length).to_bytes ++
      (encodeInputs ins ++ toLeBytes 4 lt))).drop
        (4 + (CompactSize.mk ins.length).to_bytes.length +
          (encodeInputs ins).length) = toLeBytes 4 lt := by
    rw [show (toLeBytes 4 ver ++ ((CompactSize.mk ins.length).to_bytes ++
        (encodeInputs ins ++ toLeBytes 4 lt))) =
        ((toLeBytes 4 ver ++ (CompactSize.mk ins.length).to_bytes ++
          encodeInputs ins) ++ toLeBytes 4 lt) by simp [List.append_assoc]]
    exact drop_append_eq _ _ _ (by simp [toLeBytes_length]; omega)
  rw [hlock, List.take_append_of_le_length (by simp [toLeBytes_length])]
  rw [show (toLeBytes 4 ver).take 4 = toLeBytes 4 ver from
      List.take_of_length_le (by simp [toLeBytes_length]),
    fromLeBytes_toLeBytes 4 ver (by omega)]
  rw [show (toLeBytes 4 lt).take 4 = toLeBytes 4 lt from
      List.take_of_length_le (by simp [toLeBytes_length]),
    fromLeBytes_toLeBytes 4 lt (by omega)]
  simp [toLeBytes_length]
  omega

theorem compactSize_decode_clean (bytes : List Nat) :
    (CompactSize.from_bytes bytes).isOkOrInsufficient = true := by
  unfold CompactSize.from_bytes
  cases bytes with
  | nil => rfl
  | cons b t =>
    simp only
    split
    · rfl
    · split
      · split <;> rfl
      · split
        · split <;> rfl
        · split <;> rfl

theorem outPoint_decode_clean (bytes : List Nat) :
    (OutPoint.from_bytes bytes).isOkOrInsufficient = true := by
  unfold OutPoint.from_bytes
  split <;> rfl

theorem script_decode_notInvalid (bytes : List Nat) :
    (Script.from_bytes bytes).isInvalidFormat = false := by
  have hcs := compactSize_decode_clean bytes
  unfold Script.from_bytes
  cases hm : CompactSize.from_bytes bytes with
  | err e =>
    cases e with
    | insufficientBytes => rfl
    | invalidFormat =>
      rw [hm] at hcs
      simp [DecodeResult.isOkOrInsufficient] at hcs
  | panic => rfl
  | ok p =>
    obtain ⟨len, consumed⟩ := p
    simp only
    split
    · rfl
    · split <;> rfl

theorem txInput_decode_notInvalid (bytes : List Nat) :
    (TransactionInput.from_bytes bytes).isInvalidFormat = false := by
  have hop := outPoint_decode_clean bytes
  unfold TransactionInput.from_bytes
  cases hm : OutPoint.from_bytes bytes with
  | err e =>
    cases e with
    | insufficientBytes => rfl
    | invalidFormat =>
      rw [hm] at hop
      simp [DecodeResult.isOkOrInsufficient] at hop
  | panic => rfl
  | ok p =>
    obtain ⟨po, c1⟩ := p
    simp only
    split
    · rfl
    · have hss := script_decode_notInvalid (bytes.drop c1)
      cases hs : Script.from_bytes (bytes.drop c1) with
      | err e =>
        cases e with
        | insufficientBytes => rfl
        | invalidFormat =>
          rw [hs] at hss
          simp [DecodeResult.isInvalidFormat] at hss
      | panic => rfl
      | ok q =>
        obtain ⟨ss, c2⟩ := q
        simp only
        split <;> rfl

theorem decodeInputs_notInvalid (bytes : List Nat) (fuel : Nat) :
    ∀ offset acc, (decodeInputs bytes fuel offset acc).isInvalidFormat = false := by
  induction fuel with
  | zero => intro offset acc; rfl
  | succ n ih =>
    intro offset acc
    unfold decodeInputs
    split
    · rfl
    · have hti := txInput_decode_notInvalid (bytes.drop offset)
      cases ht : TransactionInput.from_bytes (bytes.drop offset) with
      | err e =>
        cases e with
        | insufficientBytes => rfl
        | invalidFormat =>
          rw [ht] at hti
          simp [DecodeResult.isInvalidFormat] at hti
      | panic => rfl
      | ok p =>
        obtain ⟨i, c⟩ := p
        simp only
        exact ih _ _

theorem transaction_decode_notInvalid (bytes : List Nat) :
    (BitcoinTransaction.from_bytes bytes).isInvalidFormat = false := by
  unfold BitcoinTransaction.from_bytes
  split
  · rfl
  · have hcs := compactSize_decode_clean (bytes.drop 4)
    cases hm : CompactSize.from_bytes (bytes.drop 4) with
    | err e =>
      cases e with
      | insufficientBytes => rfl
      | invalidFormat =>
        rw [hm] at hcs
        simp [DecodeResult.isOkOrInsufficient] at hcs
    | panic => rfl
    | ok p =>
      obtain ⟨cnt, consumed⟩ := p
      simp only
      have hdi := decodeInputs_notInvalid bytes cnt.value (4 + consumed) []
      cases hd : decodeInputs bytes cnt.value (4 + consumed) [] with
      | err e =>
        cases e with
        | insufficientBytes => rfl
        | invalidFormat =>
          rw [hd] at hdi
          simp [DecodeResult.isInvalidFormat] at hdi
      | panic => rfl
      | ok q =>
        obtain ⟨ins, offset⟩ := q
        simp only
        split <;> rfl

/-- Lowercase-hex-digit test: 0-9 or a-f. -/
def isLowerHexChar (c : Char) : Bool :=
  (48 ≤ c.toNat && c.toNat ≤ 57) || (97 ≤ c.toNat && c.toNat ≤ 102)

theorem hexDigitVal_hexDigitChar : ∀ d, d < 16 → hexDigitVal (hexDigitChar d) = some d := by
  decide

theorem hexDigitChar_isLower : ∀ d, d < 16 → isLowerHexChar (hexDigitChar d) = true := by
  decide

theorem hexEncode_length (bs : List Nat) : (hexEncode bs).length = 2 * bs.length := by
  induction bs with
  | nil => rfl
  | cons b rest ih => simp [hexEncode, ih]; omega

theorem hexEncode_lower (bs : List Nat) (h : ∀ b ∈ bs, b < 256) :
    ∀ c ∈ hexEncode bs, isLowerHexChar c = true := by
  induction bs with
  | nil => simp [hexEncode]
  | cons b rest ih =>
    have hb : b < 256 := h b (by simp)
    intro c hc
    simp only [hexEncode, List.mem_cons] at hc
    rcases hc with rfl | rfl | hc
    · exact hexDigitChar_isLower (b / 16) (by omega)
    · exact hexDigitChar_isLower (b % 16) (by omega)
    · exact ih (fun x hx => h x (by simp [hx])) c hc

theorem hexDecode_hexEncode (bs : List Nat) (h : ∀ b ∈ bs, b < 256) :
    hexDecode (hexEncode bs) = some bs := by
  induction bs with
  | nil => rfl
  | cons b rest ih =>
    have hb : b < 256 := h b (by simp)
    simp only [hexEncode, hexDecode,
      hexDigitVal_hexDigitChar (b / 16) (by omega),
      hexDigitVal_hexDigitChar (b % 16) (by omega),
      ih (fun x hx => h x (by simp [hx]))]
    simp
    omega

theorem clean_notInvalid {α : Type} (r : DecodeResult α)
    (h : r.isOkOrInsufficient = true) : r.isInvalidFormat = false := by
  cases r with
  | ok a => rfl
  | panic => rfl
  | err e =>
    cases e with
    | insufficientBytes => rfl
    | invalidFormat => simp [DecodeResult.isOkOrInsufficient] at h

/- Concrete valid structures used by the witnesses. -/

def exampleTxid : Txid := ⟨List.replicate 32 7⟩

def exampleOutPoint : OutPoint := ⟨exampleTxid, 5⟩

def exampleScript : Script := ⟨[222, 173]⟩

def exampleInput : TransactionInput := ⟨exampleOutPoint, exampleScript, 9⟩

def exampleTx : BitcoinTransaction := ⟨1, [exampleInput], 1700000000⟩

/-- Claim C1: for every valid structure of each of the five codec types,
decoding the bytes produced by encoding succeeds and returns exactly the
original value together with the length of the encoding. -/
theorem claim1_roundtrip :
    (∀ cs : CompactSize, cs.Valid →
      CompactSize.from_bytes cs.to_bytes = .ok (cs, cs.to_bytes.length)) ∧
    (∀ op : OutPoint, op.Valid →
      OutPoint.from_bytes op.to_bytes = .ok (op, op.to_bytes.length)) ∧
    (∀ s : Script, s.Valid →
      Script.from_bytes s.to_bytes = .ok (s, s.to_bytes.length)) ∧
    (∀ i : TransactionInput, i.Valid →
      TransactionInput.from_bytes i.to_bytes = .ok (i, i.to_bytes.length)) ∧
    (∀ tx : BitcoinTransaction, tx.Valid →
      BitcoinTransaction.from_bytes tx.to_bytes = .ok (tx, tx.to_bytes.length)) := by
  refine ⟨?_, ?_, ?_, ?_, ?_⟩
  · intro cs h
    have := compactSize_roundtrip cs h []
    simpa using this
  · intro op h
    have := outPoint_roundtrip op h []
    rw [outPoint_to_bytes_length op h.1.1]
    simpa using this
  · intro s h
    have := script_roundtrip s h []
    simpa using this
  · intro i h
    have := txInput_roundtrip i h []
    simpa using this
  · exact fun tx h => transaction_roundtrip tx h

/-- Witness for C1: the round trip evaluated at one concrete valid value of
each type. -/
theorem claim1_roundtrip_witness :
    CompactSize.from_bytes (CompactSize.mk 777).to_bytes
      = .ok (CompactSize.mk 777, (CompactSize.mk 777).to_bytes.length) ∧
    OutPoint.from_bytes exampleOutPoint.to_bytes
      = .ok (exampleOutPoint, exampleOutPoint.to_bytes.length) ∧
    Script.from_bytes exampleScript.to_bytes
      = .ok (exampleScript, exampleScript.to_bytes.length) ∧
    TransactionInput.from_bytes exampleInput.to_bytes
      = .ok (exampleInput, exampleInput.to_bytes.length) ∧
    BitcoinTransaction.from_bytes exampleTx.to_bytes
      = .ok (exampleTx, exampleTx.to_bytes.length) :=
  ⟨claim1_roundtrip.1 _ (by decide),
   claim1_roundtrip.2.1 _ (by decide),
   claim1_roundtrip.2.2.1 _ (by decide),
   claim1_roundtrip.2.2.2.1 _ (by decide),
   claim1_roundtrip.2.2.2.2 _ (by decide)⟩

/-- Claim C2: CompactSize encoding is canonical and minimal for every u64
value: exactly 1, 3, 5 or 9 bytes depending on the range, discriminator
first, then the value in little-endian order; a wider form than necessary
is never produced (the four exhaustive cases leave no room for one). -/
theorem claim2_compactSize_encode_canonical :
    ∀ v : Nat, v < 2 ^ 64 →
      (v ≤ 0xFC → (CompactSize.mk v).to_bytes = [v]) ∧
      (0xFD ≤ v → v ≤ 0xFFFF →
        (CompactSize.mk v).to_bytes = [0xFD, v % 256, v / 256]) ∧
      (0x10000 ≤ v → v ≤ 0xFFFFFFFF →
        (CompactSize.mk v).to_bytes
          = [0xFE, v % 256, v / 256 % 256, v / 65536 % 256, v / 16777216]) ∧
      (0xFFFFFFFF < v →
        (CompactSize.mk v).to_bytes
          = [0xFF, v % 256, v / 256 % 256, v / 65536 % 256, v / 16777216 % 256,
             v / 4294967296 % 256, v / 1099511627776 % 256,
             v / 281474976710656 % 256, v / 72057594037927936]) := by
  intro v hv
  refine ⟨?_, ?_, ?_, ?_⟩
  · intro h1
    simp only [CompactSize.to_bytes, if_pos h1]
    simp
    omega
  · intro h1 h2
    simp only [CompactSize.to_bytes, if_neg (by omega : ¬ v ≤ 0xFC), if_pos h2]
    simp [toLeBytes]
    omega
  · intro h1 h2
    simp only [CompactSize.to_bytes, if_neg (by omega : ¬ v ≤ 0xFC),
      if_neg (by omega : ¬ v ≤ 0xFFFF), if_pos h2]
    simp [toLeBytes]
    omega
  · intro h1
    simp only [CompactSize.to_bytes, if_neg (by omega : ¬ v ≤ 0xFC),
      if_neg (by omega : ¬ v ≤ 0xFFFF), if_neg (by omega : ¬ v ≤ 0xFFFFFFFF)]
    simp [toLeBytes]
    omega

/-- Witness for C2: one concrete value in each of the four ranges. -/
theorem claim2_compactSize_encode_canonical_witness :
    (CompactSize.mk 7).to_bytes = [7] ∧
    (CompactSize.mk 0xFFFF).to_bytes = [0xFD, 0xFF, 0xFF] ∧
    (CompactSize.mk 0x10000).to_bytes = [0xFE, 0, 0, 1, 0] ∧
    (CompactSize.mk 0x100000000).to_bytes = [0xFF, 0, 0, 0, 0, 1, 0, 0, 0] :=
  ⟨(claim2_compactSize_encode_canonical 7 (by decide)).1 (by decide),
   (claim2_compactSize_encode_canonical 0xFFFF (by decide)).2.1 (by decide) (by decide),
   (claim2_compactSize_encode_canonical 0x10000 (by decide)).2.2.1 (by decide) (by decide),
   (claim2_compactSize_encode_canonical 0x100000000 (by decide)).2.2.2 (by decide)⟩

/-- Claim C3: CompactSize decoding: empty input fails with
InsufficientBytes; a first byte up to 0xFC is the value itself with 1 byte
consumed; discriminators 0xFD/0xFE/0xFF require 2/4/8 further bytes
(InsufficientBytes otherwise) and read them as a little-endian integer,
consuming 1 + width; the non-canonical encoding 0xFD 05 00 is accepted as
5 with 3 bytes consumed. -/
theorem claim3_compactSize_decode :
    (CompactSize.from_bytes [] = .err .insufficientBytes) ∧
    (∀ (b : Nat) (rest : List Nat), b ≤ 0xFC →
      CompactSize.from_bytes (b :: rest) = .ok (⟨b⟩, 1)) ∧
    (∀ rest : List Nat, rest.length < 2 →
      CompactSize.from_bytes (0xFD :: rest) = .err .insufficientBytes) ∧
    (∀ (b0 b1 : Nat) (rest : List Nat),
      CompactSize.from_bytes (0xFD :: b0 :: b1 :: rest)
        = .ok (⟨b0 + 256 * b1⟩, 3)) ∧
    (∀ rest : List Nat, rest.length < 4 →
      CompactSize.from_bytes (0xFE :: rest) = .err .insufficientBytes) ∧
    (∀ (b0 b1 b2 b3 : Nat) (rest : List Nat),
      CompactSize.from_bytes (0xFE :: b0 :: b1 :: b2 :: b3 :: rest)
        = .ok (⟨b0 + 256 * b1 + 65536 * b2 + 16777216 * b3⟩, 5)) ∧
    (∀ rest : List Nat, rest.length < 8 →
      CompactSize.from_bytes (0xFF :: rest) = .err .insufficientBytes) ∧
    (∀ (b0 b1 b2 b3 b4 b5 b6 b7 : Nat) (rest : List Nat),
      CompactSize.from_bytes (0xFF :: b0 :: b1 :: b2 :: b3 :: b4 :: b5 :: b6 :: b7 :: rest)
        = .ok (⟨b0 + 256 * b1 + 65536 * b2 + 16777216 * b3 + 4294967296 * b4 +
            1099511627776 * b5 + 281474976710656 * b6 +
            72057594037927936 * b7⟩, 9)) ∧
    (CompactSize.from_bytes [0xFD, 0x05, 0x00] = .ok (⟨5⟩, 3)) := by
  refine ⟨rfl, ?_, ?_, ?_, ?_, ?_, ?_, ?_, by decide⟩
  · exact fun b rest h => CompactSize.from_bytes_small b rest h
  · exact fun rest h => CompactSize.from_bytes_fd_short rest h
  · intro b0 b1 rest
    rw [CompactSize.from_bytes_fd _ (by simp)]
    simp [fromLeBytes]
  · exact fun rest h => CompactSize.from_bytes_fe_short rest h
  · intro b0 b1 b2 b3 rest
    rw [CompactSize.from_bytes_fe _ (by simp)]
    simp [fromLeBytes]
    omega
  · exact fun rest h => CompactSize.from_bytes_ff_short rest h
  · intro b0 b1 b2 b3 b4 b5 b6 b7 rest
    rw [CompactSize.from_bytes_ff _ (by simp)]
    simp [fromLeBytes]
    omega

/-- Witness for C3: decoded instances of the empty, single-byte, truncated
and full wide forms. -/
theorem claim3_compactSize_decode_witness :
    CompactSize.from_bytes (5 :: ([] : List Nat)) = .ok (⟨5⟩, 1) ∧
    CompactSize.from_bytes (0xFE :: [1]) = .err .insufficientBytes ∧
    CompactSize.from_bytes (0xFD :: 7 :: 1 :: [99]) = .ok (⟨7 + 256 * 1⟩, 3) :=
  ⟨claim3_compactSize_decode.2.1 5 [] (by decide),
   claim3_compactSize_decode.2.2.2.2.1 [1] (by decide),
   claim3_compactSize_decode.2.2.2.1 7 1 [99]⟩

/-- Claim C4 (code bug): on the 9-byte input FF FF FF FF FF FF FF FF FF the
CompactSize header decodes to 2^64 - 1 with 9 bytes consumed, so
headerSize + declaredLength exceeds the input length and the claim requires
InsufficientBytes — but `Script::from_bytes` computes
`consumed + length.value as usize`, which overflows: a debug build panics
at the addition, a release build wraps the total to 8, passes the length
test, and panics indexing `bytes[9..8]`. -/
theorem claim4_script_decode_overflow_panics :
    Script.from_bytes (0xFF :: List.replicate 8 0xFF) = .panic := by rfl

/-- Claim C5 (code bug): the transaction decoder propagates the same
overflow panic: a buffer declaring one input whose script header declares
length 2^64 - 1 makes `BitcoinTransaction::from_bytes` panic instead of
returning InsufficientBytes.  The second conjunct shows the behaviour the
claim describes on its own example, a count field of 2 over a buffer
holding one complete input: InsufficientBytes while decoding the second
input. -/
theorem claim5_transaction_decode_overflow_panics :
    BitcoinTransaction.from_bytes
        ([0x01, 0, 0, 0] ++ [0x01] ++ List.replicate 36 0 ++
          (0xFF :: List.replicate 8 0xFF)) = .panic ∧
    BitcoinTransaction.from_bytes
        ([0x01, 0, 0, 0] ++ [0x02] ++
          (List.replicate 36 7 ++ [0x00] ++ [0xAA, 0, 0, 0]))
      = .err .insufficientBytes := by
  exact ⟨by rfl, by rfl⟩

/-- Claim C6: OutPoint encoding is the 32 identifier bytes followed by the
index as 4 little-endian bytes, 36 bytes total; decoding fails with
InsufficientBytes below 36 bytes and otherwise splits 32 + 4, reporting 36
consumed. -/
theorem claim6_outPoint_wire_format :
    (∀ op : OutPoint, op.Valid →
      op.to_bytes = op.txid.bytes ++
        [op.vout % 256, op.vout / 256 % 256, op.vout / 65536 % 256,
         op.vout / 16777216] ∧
      op.to_bytes.length = 36) ∧
    (∀ bytes : List Nat, bytes.length < 36 →
      OutPoint.from_bytes bytes = .err .insufficientBytes) ∧
    (∀ (pre : List Nat) (b0 b1 b2 b3 : Nat) (rest : List Nat), pre.length = 32 →
      OutPoint.from_bytes (pre ++ [b0, b1, b2, b3] ++ rest)
        = .ok (⟨⟨pre⟩, b0 + 256 * b1 + 65536 * b2 + 16777216 * b3⟩, 36)) := by
  refine ⟨?_, ?_, ?_⟩
  · intro op h
    obtain ⟨⟨hlen, _⟩, hvout⟩ := h
    constructor
    · simp only [OutPoint.to_bytes, toLeBytes]
      simp
      omega
    · exact outPoint_to_bytes_length op hlen
  · intro bytes h
    simp [OutPoint.from_bytes, h]
  · intro pre b0 b1 b2 b3 rest hpre
    rw [List.append_assoc]
    unfold OutPoint.from_bytes
    rw [if_neg (by simp [hpre]; omega)]
    rw [take_append_eq _ _ _ hpre, drop_append_eq _ _ _ hpre]
    rw [List.take_append_of_le_length (by simp)]
    simp [fromLeBytes]
    omega

/-- Witness for C6: a concrete encode and a concrete decode at the 36-byte
boundary. -/
theorem claim6_outPoint_wire_format_witness :
    ((OutPoint.mk ⟨List.replicate 32 3⟩ 0xFFFFFFFF).to_bytes
      = List.replicate 32 3 ++ [0xFF, 0xFF, 0xFF, 0xFF] ∧
     (OutPoint.mk ⟨List.replicate 32 3⟩ 0xFFFFFFFF).to_bytes.length = 36) ∧
    OutPoint.from_bytes (List.replicate 32 0 ++ [1, 0, 0, 0] ++ [])
      = .ok (⟨⟨List.replicate 32 0⟩, 1⟩, 36) :=
  ⟨claim6_outPoint_wire_format.1 _ (by decide),
   claim6_outPoint_wire_format.2.2 (List.replicate 32 0) 1 0 0 0 [] (by decide)⟩

/-- Claim C7, amended: binary decoding never produces InvalidFormat — for
every input, CompactSize and OutPoint decoding return Ok or
InsufficientBytes, and the Script, TransactionInput and BitcoinTransaction
decoders never return InvalidFormat either (on length-overflow inputs they
panic rather than return, which is the one divergence from the claim as
stated). -/
theorem claim7_binary_decode_never_invalidFormat :
    ∀ bytes : List Nat,
      (CompactSize.from_bytes bytes).isOkOrInsufficient = true ∧
      (OutPoint.from_bytes bytes).isOkOrInsufficient = true ∧
      (Script.from_bytes bytes).isInvalidFormat = false ∧
      (TransactionInput.from_bytes bytes).isInvalidFormat = false ∧
      (BitcoinTransaction.from_bytes bytes).isInvalidFormat = false :=
  fun bytes =>
    ⟨compactSize_decode_clean bytes,
     outPoint_decode_clean bytes,
     script_decode_notInvalid bytes,
     txInput_decode_notInvalid bytes,
     transaction_decode_notInvalid bytes⟩

/-- Witness for C7: the amended statement evaluated on a concrete input. -/
theorem claim7_binary_decode_never_invalidFormat_witness :
    (CompactSize.from_bytes [0xFD]).isOkOrInsufficient = true ∧
    (OutPoint.from_bytes [0xFD]).isOkOrInsufficient = true ∧
    (Script.from_bytes [0xFD]).isInvalidFormat = false ∧
    (TransactionInput.from_bytes [0xFD]).isInvalidFormat = false ∧
    (BitcoinTransaction.from_bytes [0xFD]).isInvalidFormat = false :=
  claim7_binary_decode_never_invalidFormat [0xFD]

/-- Counterexample to C7 as stated: on the 9-byte input
FF F7 FF FF FF FF FF FF FF (declared length 2^64 - 9) `Script::from_bytes`
neither succeeds nor returns InsufficientBytes — it panics on the
overflowing size computation. -/
theorem claim7_counterexample_script_panics :
    (Script.from_bytes (0xFF :: 0xF7 :: List.replicate 7 0xFF)).isOkOrInsufficient
      = false := by rfl

/-- Claim C8: the identifier's interchange serialisation is the
64-character lowercase hex rendering of the 32 stored bytes in stored
order (hex-decoding it returns exactly the stored bytes), and interchange
deserialisation fails with InvalidFormat on every string that does not
hex-decode to exactly 32 bytes. -/
theorem claim8_txid_hex_interchange :
    (∀ t : Txid, t.Valid →
      t.serializeHex.length = 64 ∧
      (∀ c ∈ t.serializeHex, isLowerHexChar c = true) ∧
      hexDecode t.serializeHex = some t.bytes) ∧
    (∀ s : List Char, (∀ bs, hexDecode s = some bs → bs.length ≠ 32) →
      Txid.deserializeHex s = .err .invalidFormat) := by
  constructor
  · intro t ht
    obtain ⟨hlen, hb⟩ := ht
    refine ⟨?_, hexEncode_lower _ hb, hexDecode_hexEncode _ hb⟩
    simp [Txid.serializeHex, hexEncode_length, hlen]
  · intro s h
    unfold Txid.deserializeHex
    cases hm : hexDecode s with
    | none => rfl
    | some bs => simp [h bs hm]

/-- Witness for C8: the all-zero identifier serialises to 64 lowercase hex
characters that decode back to the stored bytes, and a 1-byte hex string is
rejected with InvalidFormat. -/
theorem claim8_txid_hex_interchange_witness :
    ((Txid.mk (List.replicate 32 0)).serializeHex.length = 64 ∧
     (∀ c ∈ (Txid.mk (List.replicate 32 0)).serializeHex, isLowerHexChar c = true) ∧
     hexDecode (Txid.mk (List.replicate 32 0)).serializeHex
       = some (List.replicate 32 0)) ∧
    Txid.deserializeHex [Char.ofNat 97, Char.ofNat 98] = .err .invalidFormat :=
  ⟨claim8_txid_hex_interchange.1 _ (by decide),
   claim8_txid_hex_interchange.2 _ (by
    intro bs h
    rw [show hexDecode [Char.ofNat 97, Char.ofNat 98] = some [171] from rfl] at h
    injection h with h
    subst h
    decide)⟩

/-- Claim C9: the transaction with version 1, no inputs and lock time 0
encodes to exactly 01 00 00 00 00 00 00 00 00, and decoding those 9 bytes
returns that transaction consuming all 9. -/
theorem claim9_empty_transaction_end_to_end :
    (BitcoinTransaction.mk 1 [] 0).to_bytes = [0x01, 0, 0, 0, 0, 0, 0, 0, 0] ∧
    BitcoinTransaction.from_bytes [0x01, 0, 0, 0, 0, 0, 0, 0, 0]
      = .ok (BitcoinTransaction.mk 1 [] 0, 9) := by
  exact ⟨by rfl, by rfl⟩

/-- Claim C10 (code bug): decoding is not total — a TransactionInput whose
script length header declares 2^64 - 1 drives the size computation
`consumed + declaredLength` past `usize::MAX`, and the decoder panics
(debug: overflow at the addition; release: wrapped total then the slice
`bytes[consumed..total]` with start above end) instead of returning Ok or
Err. -/
theorem claim10_txInput_decode_overflow_panics :
    TransactionInput.from_bytes
        (List.replicate 36 0 ++ (0xFF :: List.replicate 8 0xFF)) = .panic := by
  rfl

end BitcoinCodec
